import Mathlib

/-!
Verification of the user/role repository layer of a Go REST-API boilerplate.

The embedding models the relational store as explicit lists of rows
(`users`, `roles`, `userRoles`) and each repository method as a pure
function over that state.  Machine timestamps are `Nat`; the soft-delete
marker `deleted_at` is `Option Nat`.  Mutating operations return the
result (`Except RepoError Unit`) together with the committed database
state after the call.
-/

set_option maxRecDepth 8000

namespace UserRepo

/-- `Role` row (`internal/user/role.go`): id, unique name, description,
timestamps. -/
structure Role where
  id : Nat
  name : String
  description : String
  createdAt : Nat
  updatedAt : Nat
  deriving DecidableEq, Repr

/-- `User` row plus its loaded `Roles` relation (`internal/user/model.go`).
`deletedAt = some t` is the soft-delete marker (`bun:"deleted_at,soft_delete"`). -/
structure User where
  id : Nat
  name : String
  email : String
  passwordHash : String
  roles : List Role
  createdAt : Nat
  updatedAt : Nat
  deletedAt : Option Nat
  deriving DecidableEq, Repr

/-- `user_roles` association row: composite key (userId, roleId) plus
`assigned_at`. -/
structure UserRole where
  userId : Nat
  roleId : Nat
  assignedAt : Nat
  deriving DecidableEq, Repr

/-- The committed state of the relational store. -/
structure DB where
  users : List User
  roles : List Role
  userRoles : List UserRole
  deriving DecidableEq, Repr

/-- Error kinds the repository returns (`errors.New` values in the source). -/
inductive RepoError where
  | invalidSortField
  | invalidSortOrder
  | roleNotFound
  deriving DecidableEq, Repr

instance {α β : Type} [DecidableEq α] [DecidableEq β] : DecidableEq (Except α β) :=
  fun a b =>
  match a, b with
  | Except.ok v1, Except.ok v2 =>
    if h : v1 = v2 then isTrue (by rw [h]) else isFalse (by simp [h])
  | Except.error e1, Except.error e2 =>
    if h : e1 = e2 then isTrue (by rw [h]) else isFalse (by simp [h])
  | Except.ok _, Except.error _ => isFalse (by simp)
  | Except.error _, Except.ok _ => isFalse (by simp)

/-- `RoleAdmin` constant from `internal/user/role.go`. -/
def RoleAdmin : String := "admin"

/-- `User.HasRole` (`model.go`): linear scan of the loaded role set. -/
def hasRole (u : User) (roleName : String) : Bool :=
  u.roles.any (fun role => role.name == roleName)

/-- `User.IsAdmin` (`model.go`). -/
def isAdmin (u : User) : Bool :=
  hasRole u RoleAdmin

/-- `User.GetRoleNames` (`model.go`): builds the name list index by index. -/
def getRoleNames (u : User) : List String :=
  u.roles.map (fun role => role.name)

/-- `FindRoleByName`: `SELECT * FROM roles WHERE name = ?`, the "no rows"
condition mapped to `none`. -/
def findRoleByName (db : DB) (name : String) : Option Role :=
  db.roles.find? (fun r => r.name == name)

/-- `GetUserRoles`: `SELECT roles.* FROM roles JOIN user_roles ON
user_roles.role_id = roles.id WHERE user_roles.user_id = ?`.  One result row
per matching (role, user_roles) pair, so multiplicity follows the join. -/
def getUserRoles (db : DB) (userID : Nat) : List Role :=
  db.roles.flatMap (fun r =>
    (db.userRoles.filter (fun ur => ur.roleId == r.id && ur.userId == userID)).map
      (fun _ => r))

/-- `Create`: inserts the user row. -/
def create (db : DB) (u : User) : DB :=
  { db with users := db.users ++ [u] }

/-- `FindByID`: select with the soft-delete default filter
(`deleted_at IS NULL`) and the `Roles` relation loaded; "no rows" is the
absent signal `none`. -/
def findByID (db : DB) (id : Nat) : Option User :=
  match db.users.find? (fun row => row.id == id && row.deletedAt.isNone) with
  | none => none
  | some row => some { row with roles := getUserRoles db row.id }

/-- `Update`: writes exactly the columns `name`, `email`, `password_hash`,
`updated_at` of the rows matching the user's id (`Column(...)` in the
source); no other column and no other table is touched. -/
def update (db : DB) (u : User) : DB :=
  { db with users := db.users.map (fun row =>
      if row.id == u.id then
        { row with
            name := u.name
            email := u.email
            passwordHash := u.passwordHash
            updatedAt := u.updatedAt }
      else row) }

/-- `Delete`: soft delete.  With the `soft_delete` model tag the delete
becomes `UPDATE users SET deleted_at = now WHERE id = ? AND deleted_at IS
NULL`; the affected-row count is discarded and the call always succeeds. -/
def delete (db : DB) (id : Nat) (now : Nat) : Except RepoError Unit × DB :=
  (Except.ok (),
   { db with users := db.users.map (fun row =>
       if row.id == id && row.deletedAt.isNone then
         { row with deletedAt := some now }
       else row) })

/-- `AssignRole`: role lookup first; unknown role returns the error before
any insert; otherwise `INSERT INTO user_roles ... ON CONFLICT (user_id,
role_id) DO NOTHING`. -/
def assignRole (db : DB) (userID : Nat) (roleName : String) (now : Nat) :
    Except RepoError Unit × DB :=
  match findRoleByName db roleName with
  | none => (Except.error RepoError.roleNotFound, db)
  | some role =>
    if db.userRoles.any (fun ur => ur.userId == userID && ur.roleId == role.id) then
      (Except.ok (), db)
    else
      (Except.ok (),
       { db with userRoles :=
           db.userRoles ++ [{ userId := userID, roleId := role.id, assignedAt := now }] })

/-- `CreateAndAssignRole`: the source begins a transaction, attaches it to
the context, runs `Create` then `AssignRole` against the transaction state,
and returns.  It contains no `Commit` (and no `Rollback`) call, so the
committed database is unchanged whatever happens inside the transaction;
only the inner error (if any) is propagated. -/
def createAndAssignRole (db : DB) (u : User) (roleName : String) (now : Nat) :
    Except RepoError Unit × DB :=
  let tx := db
  let tx1 := create tx u
  match (assignRole tx1 u.id roleName now).1 with
  | Except.error e => (Except.error e, db)
  | Except.ok _ => (Except.ok (), db)

/-- `UserFilterParams`: the filter specification for `ListAllUsers`.
Empty string stands for an absent `role` / `search` filter. -/
structure UserFilterParams where
  role : String
  search : String
  sort : String
  order : String
  deriving DecidableEq, Repr

/-- The wildcard escaping in `ListAllUsers`:
`strings.ReplaceAll(search, "%", "\\%")` followed by
`strings.ReplaceAll(..., "_", "\\_")`.  The first pass only inserts
backslashes and `%` characters, never `_`, so the two sequential passes
equal this single pass. -/
def escapeLike : List Char → List Char
  | [] => []
  | c :: cs =>
    if c = '%' || c = '_' then '\\' :: c :: escapeLike cs
    else c :: escapeLike cs

/-- Tries `f` on every suffix of the subject string: the continuation of a
`%` wildcard. -/
def starSuffix (f : List Char → Bool) : List Char → Bool
  | [] => f []
  | d :: t => f (d :: t) || starSuffix f t

/-- Consumes one subject character equal to `c`, then continues with `f`:
the step of a literal (or escaped) pattern character. -/
def litStep (c : Char) (f : List Char → Bool) : List Char → Bool
  | [] => false
  | d :: t => c = d && f t

/-- Consumes one arbitrary subject character, then continues with `f`:
the step of the `_` wildcard. -/
def anyStep (f : List Char → Bool) : List Char → Bool
  | [] => false
  | _ :: t => f t

/-- Semantics of the store's `LIKE` operator on the escaped pattern:
`%` matches any sequence, `_` any single character, and a backslash
escapes the next pattern character (the default escape of the target
store). -/
def likeMatch : List Char → List Char → Bool
  | [], s => s.isEmpty
  | c :: p, s =>
    if c = '%' then
      starSuffix (likeMatch p) s
    else if c = '\\' then
      match p with
      | [] => false
      | e :: p2 => litStep e (likeMatch p2) s
    else if c = '_' then
      anyStep (likeMatch p) s
    else
      litStep c (likeMatch p) s

/-- The pattern `"%" + escapedSearch + "%"` built by `ListAllUsers`. -/
def escapedPattern (search : String) : List Char :=
  '%' :: (escapeLike search.toList ++ ['%'])

/-- The search condition `users.name LIKE ? OR users.email LIKE ?`. -/
def searchPred (search : String) (u : User) : Bool :=
  likeMatch (escapedPattern search) u.name.toList ||
    likeMatch (escapedPattern search) u.email.toList

/-- Plain sequential containment of `t` at the head of `s`. -/
def listStartsWith : List Char → List Char → Bool
  | [], _ => true
  | _ :: _, [] => false
  | c :: t, d :: s => c = d && listStartsWith t s

/-- Plain sequential containment: `t` occurs contiguously inside `s`.
This is the specification-side notion of "matches literally as a
substring"; it is compared against the pattern built by the source. -/
def listContainsSeg (t : List Char) : List Char → Bool
  | [] => t.isEmpty
  | d :: s => listStartsWith t (d :: s) || listContainsSeg t s

/-- The `JOIN user_roles ... JOIN roles ... WHERE roles.name = ?` step of
`ListAllUsers`: one joined row per matching association row, so a user can
occur with multiplicity. -/
def roleJoin (db : DB) (base : List User) (roleName : String) : List User :=
  base.flatMap (fun u =>
    (db.userRoles.filter (fun ur =>
        ur.userId == u.id &&
          db.roles.any (fun r => r.id == ur.roleId && r.name == roleName))).map
      (fun _ => u))

/-- The row set of the `ListAllUsers` query before pagination: live users
(soft-delete default filter), optionally restricted by the role join and
the search condition.  Rows keep join multiplicity. -/
def queryRows (db : DB) (f : UserFilterParams) : List User :=
  let base := db.users.filter (fun u => u.deletedAt.isNone)
  let joined := if f.role == "" then base else roleJoin db base f.role
  if f.search == "" then joined else joined.filter (searchPred f.search)

/-- The `validSorts` allow-list map in `ListAllUsers`. -/
def validSorts (s : String) : Bool :=
  s == "name" || s == "email" || s == "created_at" || s == "updated_at"

/-- Ascending comparison on the allow-listed sort column. -/
def userLE (sort : String) (a b : User) : Bool :=
  if sort == "name" then decide (a.name ≤ b.name)
  else if sort == "email" then decide (a.email ≤ b.email)
  else if sort == "created_at" then decide (a.createdAt ≤ b.createdAt)
  else decide (a.updatedAt ≤ b.updatedAt)

/-- Insertion step of the ordering the store applies for `ORDER BY`. -/
def insertSorted (le : User → User → Bool) (x : User) : List User → List User
  | [] => [x]
  | y :: ys => if le x y then x :: y :: ys else y :: insertSorted le x ys

/-- Stable sort implementing `ORDER BY column asc`. -/
def sortUsers (le : User → User → Bool) : List User → List User
  | [] => []
  | x :: xs => insertSorted le x (sortUsers le xs)

/-- `ORDER BY column direction` over the deduplicated row set. -/
def orderedUsers (f : UserFilterParams) (rows : List User) : List User :=
  let asc := sortUsers (userLE f.sort) rows
  if f.order == "desc" then asc.reverse else asc

/-- `ListAllUsers`.  Returned alongside the result is the number of store
queries the call issued.  Faithful to the source order: the
`Distinct("users.id")` count query runs first, the sort/order validation
runs after it, and only a valid sort reaches the final
`Distinct().Order(...).Limit(...).Offset(...).ScanAndCount` query (whose
recount of the same distinct query is the value the source returns as
`total`). -/
def listAllUsers (db : DB) (f : UserFilterParams) (page perPage : Nat) :
    Except RepoError (List User × Nat) × Nat :=
  let total := ((queryRows db f).map (fun u => u.id)).dedup.length
  if !(validSorts f.sort) then (Except.error RepoError.invalidSortField, 1)
  else if f.order != "asc" && f.order != "desc" then
    (Except.error RepoError.invalidSortOrder, 1)
  else
    let offset := (page - 1) * perPage
    let rows := (queryRows db f).dedup
    let pageRows := ((orderedUsers f rows).drop offset).take perPage
    let withRoles := pageRows.map (fun u => { u with roles := getUserRoles db u.id })
    (Except.ok (withRoles, total), 2)

/-! Concrete fixtures used by the witness theorems.  `seedRoles` mirrors the
migration script's seed data (`user`, `moderator`, `admin`). -/

def seedRoles : List Role :=
  [{ id := 1, name := "user", description := "Standard user", createdAt := 0, updatedAt := 0 },
   { id := 2, name := "moderator", description := "Moderator", createdAt := 0, updatedAt := 0 },
   { id := 3, name := "admin", description := "Administrator", createdAt := 0, updatedAt := 0 }]

/-- The seeded "admin" role record (third entry of `seedRoles`). -/
def adminRole : Role :=
  { id := 3, name := "admin", description := "Administrator", createdAt := 0, updatedAt := 0 }

def seedDb : DB := { users := [], roles := seedRoles, userRoles := [] }

def aliceUser : User :=
  { id := 10, name := "Alice", email := "alice@example.com", passwordHash := "h1",
    roles := [], createdAt := 0, updatedAt := 0, deletedAt := none }

def bobUser : User :=
  { id := 5, name := "Bob", email := "bob@example.com", passwordHash := "h2",
    roles := [], createdAt := 0, updatedAt := 0, deletedAt := none }

def carolGone : User :=
  { id := 5, name := "Carol", email := "carol@example.com", passwordHash := "h3",
    roles := [], createdAt := 0, updatedAt := 0, deletedAt := some 1 }

def dianaUser : User :=
  { id := 6, name := "Diana", email := "diana@example.com", passwordHash := "h4",
    roles := [], createdAt := 0, updatedAt := 0, deletedAt := none }

/-- Store for the C7 witness: one live user with id 5. -/
def liveDb : DB := { users := [bobUser], roles := seedRoles, userRoles := [] }

/-- Store for the C10 witness: id 5 already soft-deleted, id 6 live. -/
def mixedDb : DB := { users := [carolGone, dianaUser], roles := seedRoles, userRoles := [] }

/-- Store for the C4 witness: a user joined twice by the role filter (two
association rows matching the same role name), so the joined row set holds
the user with multiplicity two. -/
def dupJoinDb : DB :=
  { users := [aliceUser],
    roles := [{ id := 1, name := "admin", description := "", createdAt := 0, updatedAt := 0 },
              { id := 2, name := "admin", description := "", createdAt := 0, updatedAt := 0 }],
    userRoles := [{ userId := 10, roleId := 1, assignedAt := 0 },
                  { userId := 10, roleId := 2, assignedAt := 0 }] }

/-- Filter with a sort field outside the allow-list. -/
def dropTableFilter : UserFilterParams :=
  { role := "", search := "", sort := "dropTable", order := "asc" }

/-- Filter with a valid sort field but an invalid direction. -/
def badOrderFilter : UserFilterParams :=
  { role := "", search := "", sort := "name", order := "ASC" }

/-- Filter selecting users holding the role named "admin". -/
def adminFilter : UserFilterParams :=
  { role := "admin", search := "", sort := "name", order := "asc" }

/-- User named literally `a\b`, for the search-escaping counterexample. -/
def backslashUser : User :=
  { id := 20, name := "a\\b", email := "x@example.com", passwordHash := "h5",
    roles := [], createdAt := 0, updatedAt := 0, deletedAt := none }

/-- User named literally `x50%Off`, for the search-escaping witness. -/
def percentUser : User :=
  { id := 21, name := "x50%Off", email := "y@example.com", passwordHash := "h6",
    roles := [], createdAt := 0, updatedAt := 0, deletedAt := none }

/-- User named `a50Xb`, which a literal search for `50%` must not match. -/
def fiftyXUser : User :=
  { id := 22, name := "a50Xb", email := "z@example.com", passwordHash := "h7",
    roles := [], createdAt := 0, updatedAt := 0, deletedAt := none }

/-- C9: `HasRole`, `GetRoleNames` and `IsAdmin` are pure projections over the
loaded role set: `hasRole u x` holds iff some loaded role is named exactly
`x`; `getRoleNames` returns exactly the names of the loaded roles in order
and with the same length; `isAdmin u` equals `hasRole u "admin"`. -/
theorem claim_C9_role_projections (u : User) (x : String) :
    (hasRole u x = true ↔ ∃ r ∈ u.roles, r.name = x)
    ∧ getRoleNames u = u.roles.map (fun r => r.name)
    ∧ (getRoleNames u).length = u.roles.length
    ∧ isAdmin u = hasRole u "admin" := by
  refine ⟨?_, rfl, by simp [getRoleNames], rfl⟩
  simp [hasRole]

/-- C3: `Update` writes only the columns name, email, passwordHash and
updatedAt of the user's row: the role and association tables are unchanged,
`GetUserRoles` returns the same list before and after for every user id,
and every row keeps its id, createdAt and deletedAt. -/
theorem claim_C3_update_frame (db : DB) (u : User) (uid : Nat) :
    getUserRoles (update db u) uid = getUserRoles db uid
    ∧ (update db u).roles = db.roles
    ∧ (update db u).userRoles = db.userRoles
    ∧ (update db u).users.map (fun row => (row.id, row.createdAt, row.deletedAt))
        = db.users.map (fun row => (row.id, row.createdAt, row.deletedAt)) := by
  refine ⟨rfl, rfl, rfl, ?_⟩
  simp only [update, List.map_map]
  refine List.map_congr_left ?_
  intro a _
  by_cases h : (a.id == u.id) = true <;> simp [Function.comp, h]

/-- C8: assigning a role name that matches no role row fails with
`RoleNotFound` and leaves the store unchanged (the lookup precedes the
insert statement). -/
theorem claim_C8_assign_unknown_role (db : DB) (uid : Nat) (roleName : String)
    (now : Nat) (h : findRoleByName db roleName = none) :
    assignRole db uid roleName now = (Except.error RepoError.roleNotFound, db) := by
  simp [assignRole, h]

theorem claim_C8_witness :
    assignRole seedDb 1 "editor" 5 = (Except.error RepoError.roleNotFound, seedDb) :=
  claim_C8_assign_unknown_role seedDb 1 "editor" 5 (by decide)

/-- C10: `Delete` never reports a missing row — it always returns success,
and when no live row carries the id (absent id, or an already soft-deleted
row) the store is left unchanged. -/
theorem claim_C10_delete_no_notfound (db : DB) (id now : Nat) :
    (delete db id now).1 = Except.ok ()
    ∧ ((db.users.all (fun row => !(row.id == id && row.deletedAt.isNone))) = true →
        (delete db id now).2 = db) := by
  refine ⟨rfl, ?_⟩
  intro h
  cases db with
  | mk us rs urs =>
    simp only [delete, DB.mk.injEq, and_true, true_and]
    have hfix : ∀ a ∈ us,
        (if a.id == id && a.deletedAt.isNone then { a with deletedAt := some now }
         else a) = a := by
      intro a ha
      have h2 := List.all_eq_true.mp h a ha
      rw [Bool.not_eq_eq_eq_not, Bool.not_true] at h2
      simp [h2]
    calc us.map (fun a =>
          if a.id == id && a.deletedAt.isNone then { a with deletedAt := some now }
          else a)
        = us.map (fun a => a) := List.map_congr_left hfix
      _ = us := by simp

theorem claim_C10_witness :
    (delete mixedDb 5 7).1 = Except.ok () ∧ (delete mixedDb 5 7).2 = mixedDb :=
  ⟨(claim_C10_delete_no_notfound mixedDb 5 7).1,
   (claim_C10_delete_no_notfound mixedDb 5 7).2 (by decide)⟩

/-- C7: `Delete` is a soft delete — for an id present in the store the call
succeeds, a subsequent `FindByID` returns the absent signal, and a row with
that id still physically exists in the store. -/
theorem claim_C7_soft_delete (db : DB) (id now : Nat)
    (h : ∃ row ∈ db.users, row.id = id) :
    (delete db id now).1 = Except.ok ()
    ∧ findByID (delete db id now).2 id = none
    ∧ ∃ row ∈ (delete db id now).2.users, row.id = id := by
  refine ⟨rfl, ?_, ?_⟩
  · have hnone : (delete db id now).2.users.find?
        (fun row => row.id == id && row.deletedAt.isNone) = none := by
      rw [List.find?_eq_none]
      intro x hx
      simp only [delete, List.mem_map] at hx
      obtain ⟨a, _, rfl⟩ := hx
      by_cases hc : (a.id == id && a.deletedAt.isNone) = true
      · simp [hc]
      · simp [hc]
    simp [findByID, hnone]
  · obtain ⟨row, hrow, hid⟩ := h
    refine ⟨if row.id == id && row.deletedAt.isNone then { row with deletedAt := some now }
            else row, ?_, ?_⟩
    · simp only [delete]
      exact List.mem_map.mpr ⟨row, hrow, rfl⟩
    · by_cases hd : row.deletedAt = none <;> simp [hd, hid]

theorem claim_C7_witness :
    (delete liveDb 5 7).1 = Except.ok ()
    ∧ findByID (delete liveDb 5 7).2 5 = none
    ∧ ∃ row ∈ (delete liveDb 5 7).2.users, row.id = 5 :=
  claim_C7_soft_delete liveDb 5 7 (by decide)

/-- C1: the composite create-and-assign in the source begins a transaction
but never commits it.  Evaluated at a seeded store and a fresh user with an
existing role name, the call reports success while the committed store is
unchanged: the user row does not persist, contradicting the all-or-nothing
contract whose success case requires both rows to persist. -/
theorem claim_C1_never_commits :
    (createAndAssignRole seedDb aliceUser "admin" 9).1 = Except.ok ()
    ∧ (createAndAssignRole seedDb aliceUser "admin" 9).2 = seedDb
    ∧ findByID (createAndAssignRole seedDb aliceUser "admin" 9).2 10 = none := by
  refine ⟨rfl, by decide, by decide⟩

/-- C2 counterexample: with `sort = "dropTable"` the call fails with
`InvalidSortField`, but the store has already executed one query — the
count — because the source validates the sort parameters only after
`Count` runs.  The claim's "no store query executes at all" is false. -/
theorem claim_C2_counterexample :
    listAllUsers seedDb dropTableFilter 1 10 = (Except.error RepoError.invalidSortField, 1) := by
  decide

/-- C2 amended: an out-of-allow-list sort field fails with
`InvalidSortField` and an order other than exactly "asc"/"desc" fails with
`InvalidSortOrder`, but in both cases the rejection happens after the count
query has been issued: exactly one store query (the count) executes, and
the page query is never issued. -/
theorem claim_C2_validation_after_count (db : DB) (f : UserFilterParams)
    (page perPage : Nat) :
    (validSorts f.sort = false →
        listAllUsers db f page perPage = (Except.error RepoError.invalidSortField, 1))
    ∧ (validSorts f.sort = true → (f.order != "asc" && f.order != "desc") = true →
        listAllUsers db f page perPage = (Except.error RepoError.invalidSortOrder, 1)) := by
  constructor
  · intro h
    simp [listAllUsers, h]
  · intro h1 h2
    simp [listAllUsers, h1, h2]

theorem claim_C2_witness :
    listAllUsers seedDb dropTableFilter 1 10 = (Except.error RepoError.invalidSortField, 1)
    ∧ listAllUsers seedDb badOrderFilter 1 10 = (Except.error RepoError.invalidSortOrder, 1) :=
  ⟨(claim_C2_validation_after_count seedDb dropTableFilter 1 10).1 (by decide),
   (claim_C2_validation_after_count seedDb badOrderFilter 1 10).2 (by decide) (by decide)⟩

/-- C4: with a role filter present, the total returned by `ListAllUsers` is
the number of distinct user ids among the joined rows — a user joined with
multiplicity is counted once, not once per joined row. -/
theorem claim_C4_distinct_count (db : DB) (f : UserFilterParams) (page perPage : Nat)
    (_hrole : f.role ≠ "")
    (hs : validSorts f.sort = true)
    (ho : (f.order != "asc" && f.order != "desc") = false) :
    ∃ us, (listAllUsers db f page perPage).1 =
      Except.ok (us, ((queryRows db f).map (fun u => u.id)).toFinset.card) := by
  refine ⟨(((orderedUsers f ((queryRows db f).dedup)).drop ((page - 1) * perPage)).take
      perPage).map (fun u => { u with roles := getUserRoles db u.id }), ?_⟩
  simp [listAllUsers, hs, ho, List.card_toFinset]

theorem claim_C4_witness :
    (∃ us, (listAllUsers dupJoinDb adminFilter 1 10).1 =
        Except.ok (us, ((queryRows dupJoinDb adminFilter).map (fun u => u.id)).toFinset.card))
    ∧ (queryRows dupJoinDb adminFilter).length = 2
    ∧ ((queryRows dupJoinDb adminFilter).map (fun u => u.id)).toFinset.card = 1 :=
  ⟨claim_C4_distinct_count dupJoinDb adminFilter 1 10 (by decide) (by decide) (by decide),
   by decide, by decide⟩

/-- Unfolding: the empty pattern matches only the empty subject. -/
theorem likeMatch_nil (s : List Char) : likeMatch [] s = s.isEmpty := rfl

/-- Unfolding: a `%` pattern head tries every suffix of the subject. -/
theorem likeMatch_star (p : List Char) (s : List Char) :
    likeMatch ('%' :: p) s = starSuffix (likeMatch p) s := by
  unfold likeMatch
  rfl

/-- Unfolding: a backslash makes the next pattern character literal. -/
theorem likeMatch_esc (e : Char) (p : List Char) (s : List Char) :
    likeMatch ('\\' :: e :: p) s = litStep e (likeMatch p) s := rfl

/-- Unfolding: a non-special pattern character matches itself. -/
theorem likeMatch_lit (c : Char) (p : List Char) (s : List Char)
    (h1 : c ≠ '%') (h2 : c ≠ '\\') (h3 : c ≠ '_') :
    likeMatch (c :: p) s = litStep c (likeMatch p) s := by
  unfold likeMatch
  simp [h1, h2, h3]

/-- `starSuffix f` succeeds iff `f` accepts some suffix. -/
theorem starSuffix_eq_true (f : List Char → Bool) (s : List Char) :
    starSuffix f s = true ↔ ∃ a b, s = a ++ b ∧ f b = true := by
  induction s with
  | nil =>
    constructor
    · intro h
      exact ⟨[], [], rfl, h⟩
    · rintro ⟨a, b, hab, hb⟩
      have ha := List.append_eq_nil.mp hab.symm
      rw [ha.2] at hb
      simpa [starSuffix] using hb
  | cons d t ih =>
    simp only [starSuffix, Bool.or_eq_true, ih]
    constructor
    · rintro (h | ⟨a, b, rfl, hb⟩)
      · exact ⟨[], d :: t, rfl, h⟩
      · exact ⟨d :: a, b, rfl, hb⟩
    · rintro ⟨a, b, hab, hb⟩
      cases a with
      | nil =>
        left
        rw [List.nil_append] at hab
        rw [hab]
        exact hb
      | cons a0 a2 =>
        right
        rw [List.cons_append] at hab
        injection hab with h0 htail
        exact ⟨a2, b, htail, hb⟩

/-- `litStep c f` succeeds iff the subject starts with `c` and `f` accepts the rest. -/
theorem litStep_eq_true (c : Char) (f : List Char → Bool) (s : List Char) :
    litStep c f s = true ↔ ∃ t, s = c :: t ∧ f t = true := by
  cases s with
  | nil => simp [litStep]
  | cons d t =>
    simp only [litStep, Bool.and_eq_true, decide_eq_true_eq]
    constructor
    · rintro ⟨rfl, h⟩
      exact ⟨t, rfl, h⟩
    · rintro ⟨t2, ht, h⟩
      injection ht with h0 h1
      subst h0
      subst h1
      exact ⟨rfl, h⟩

/-- A final lone `%` matches any remaining subject. -/
theorem likeMatch_pct_end (s : List Char) : likeMatch ['%'] s = true := by
  rw [likeMatch_star]
  exact (starSuffix_eq_true _ _).mpr ⟨s, [], by simp, rfl⟩

/-- An escaped backslash-free text segment of a pattern consumes exactly
that text from the subject. -/
theorem escapeLike_append_iff (t : List Char) (rest : List Char) (s : List Char)
    (h : '\\' ∉ t) :
    (likeMatch (escapeLike t ++ rest) s = true ↔
      ∃ s2, s = t ++ s2 ∧ likeMatch rest s2 = true) := by
  induction t generalizing s with
  | nil =>
    simp [escapeLike]
  | cons c t2 ih =>
    have hc : c ≠ '\\' := fun hh => h (hh ▸ List.mem_cons_self c t2)
    have ht2 : '\\' ∉ t2 := fun hm => h (List.mem_cons_of_mem c hm)
    have step : likeMatch (escapeLike (c :: t2) ++ rest) s
        = litStep c (likeMatch (escapeLike t2 ++ rest)) s := by
      by_cases hmeta : c = '%' ∨ c = '_'
      · have he : escapeLike (c :: t2) = '\\' :: c :: escapeLike t2 := by
          rcases hmeta with rfl | rfl <;> rfl
        rw [he, List.cons_append, List.cons_append, likeMatch_esc]
      · push_neg at hmeta
        have he : escapeLike (c :: t2) = c :: escapeLike t2 := by
          simp [escapeLike, hmeta.1, hmeta.2]
        rw [he, List.cons_append, likeMatch_lit c _ s hmeta.1 hc hmeta.2]
    rw [step, litStep_eq_true]
    constructor
    · rintro ⟨t3, rfl, hm⟩
      obtain ⟨s2, rfl, hrest⟩ := (ih t3 ht2).mp hm
      exact ⟨s2, rfl, hrest⟩
    · rintro ⟨s2, hs, hrest⟩
      rw [List.cons_append] at hs
      refine ⟨t2 ++ s2, hs, ?_⟩
      exact (ih (t2 ++ s2) ht2).mpr ⟨s2, rfl, hrest⟩

/-- The pattern `%escaped(t)%` built by `ListAllUsers` matches `s` iff `t`
occurs contiguously inside `s`, provided `t` itself holds no backslash. -/
theorem searchPattern_iff (t : List Char) (s : List Char) (h : '\\' ∉ t) :
    (likeMatch ('%' :: (escapeLike t ++ ['%'])) s = true ↔ ∃ a b, s = a ++ t ++ b) := by
  rw [likeMatch_star, starSuffix_eq_true]
  constructor
  · rintro ⟨a, b, rfl, hb⟩
    obtain ⟨s2, rfl, _⟩ := (escapeLike_append_iff t ['%'] b h).mp hb
    exact ⟨a, s2, by simp⟩
  · rintro ⟨a, b, hab⟩
    refine ⟨a, t ++ b, by simpa [List.append_assoc] using hab, ?_⟩
    exact (escapeLike_append_iff t ['%'] (t ++ b) h).mpr ⟨b, rfl, likeMatch_pct_end b⟩

/-- `listStartsWith` recognises list prefixes. -/
theorem listStartsWith_iff (t s : List Char) :
    listStartsWith t s = true ↔ ∃ b, s = t ++ b := by
  induction t generalizing s with
  | nil => simp [listStartsWith]
  | cons c t2 ih =>
    cases s with
    | nil => simp [listStartsWith]
    | cons d ss =>
      simp only [listStartsWith, Bool.and_eq_true, decide_eq_true_eq, ih]
      constructor
      · rintro ⟨rfl, b, rfl⟩
        exact ⟨b, rfl⟩
      · rintro ⟨b, hb⟩
        injection hb with h0 h1
        exact ⟨h0.symm, b, h1⟩

/-- `listContainsSeg` recognises contiguous containment. -/
theorem listContainsSeg_iff (t s : List Char) :
    listContainsSeg t s = true ↔ ∃ a b, s = a ++ t ++ b := by
  induction s with
  | nil =>
    simp only [listContainsSeg, List.isEmpty_iff]
    constructor
    · rintro rfl
      exact ⟨[], [], rfl⟩
    · rintro ⟨a, b, hab⟩
      have h1 := List.append_eq_nil.mp hab.symm
      exact (List.append_eq_nil.mp h1.1).2
  | cons d ss ih =>
    simp only [listContainsSeg, Bool.or_eq_true, listStartsWith_iff, ih]
    constructor
    · rintro (⟨b, hb⟩ | ⟨a, b, hab⟩)
      · exact ⟨[], b, by simpa using hb⟩
      · exact ⟨d :: a, b, by simp [hab]⟩
    · rintro ⟨a, b, hab⟩
      cases a with
      | nil =>
        left
        exact ⟨b, by simpa using hab⟩
      | cons a0 a2 =>
        right
        rw [List.cons_append, List.cons_append] at hab
        injection hab with h0 h1
        exact ⟨a2, b, by simpa [List.append_assoc] using h1⟩


/-- C6 counterexample: the search text `\\%` contains the metacharacter `%`,
is escaped by the source into the pattern `%\\\\%%` (the backslash itself is
not escaped), and that pattern matches the user named literally `a\\b` even
though `\\%` is not a substring of the name or the email — so such a search
does not match its metacharacters "literally as substrings". -/
theorem claim_C6_counterexample :
    ('%' ∈ "\\%".toList)
    ∧ searchPred "\\%" backslashUser = true
    ∧ listContainsSeg "\\%".toList backslashUser.name.toList = false
    ∧ listContainsSeg "\\%".toList backslashUser.email.toList = false := by
  refine ⟨by decide, by decide, by decide, by decide⟩

/-- C6 amended: for every search text free of the escape character `\\`
(in particular any such text containing `%` or `_`), the escaped search
condition of `ListAllUsers` holds for a user iff the search text occurs
literally as a contiguous substring of the user's name or email. -/
theorem claim_C6_escaped_search_literal (t : String) (u : User)
    (h : '\\' ∉ t.toList) :
    (searchPred t u = true ↔
      (listContainsSeg t.toList u.name.toList = true ∨
        listContainsSeg t.toList u.email.toList = true)) := by
  simp only [searchPred, escapedPattern, Bool.or_eq_true]
  rw [searchPattern_iff t.toList u.name.toList h,
    searchPattern_iff t.toList u.email.toList h,
    listContainsSeg_iff, listContainsSeg_iff]

theorem claim_C6_witness :
    searchPred "50%" percentUser = true ∧ searchPred "50%" fiftyXUser = false :=
  ⟨(claim_C6_escaped_search_literal "50%" percentUser (by decide)).mpr (by decide),
   Bool.eq_false_iff.mpr (fun hT =>
     absurd ((claim_C6_escaped_search_literal "50%" fiftyXUser (by decide)).mp hT)
       (by decide))⟩

/-- If no role in the list carries the name, the joined role names contain
it zero times. -/
theorem count_roleName_zero (roles : List Role) (urs : List UserRole) (uid : Nat)
    (rn : String) (h : ∀ r ∈ roles, r.name ≠ rn) :
    ((roles.flatMap (fun r =>
        (urs.filter (fun ur => ur.roleId == r.id && ur.userId == uid)).map
          (fun _ => r))).map (fun x => x.name)).count rn = 0 := by
  rw [List.count_eq_zero]
  intro hmem
  rcases List.mem_map.mp hmem with ⟨x, hxmem, hxn⟩
  rcases List.mem_flatMap.mp hxmem with ⟨r, hr, hx⟩
  rcases List.mem_map.mp hx with ⟨ur, _, rfl⟩
  exact h r hr hxn

/-- In the role/association join, the number of occurrences of a role name
equals the number of association rows pointing at the unique role row with
that name. -/
theorem count_roleName_flatMap (roles : List Role) (urs : List UserRole) (uid : Nat)
    (rn : String) (role : Role)
    (hmem : role ∈ roles) (hname : role.name = rn)
    (hnodup : (roles.map (fun x => x.name)).Nodup) :
    ((roles.flatMap (fun r =>
        (urs.filter (fun ur => ur.roleId == r.id && ur.userId == uid)).map
          (fun _ => r))).map (fun x => x.name)).count rn
      = (urs.filter (fun ur => ur.roleId == role.id && ur.userId == uid)).length := by
  induction roles with
  | nil => cases hmem
  | cons r rest ih =>
    rw [List.flatMap_cons, List.map_append, List.count_append]
    have hblock : (((urs.filter (fun ur => ur.roleId == r.id && ur.userId == uid)).map
        (fun _ => r)).map (fun x => x.name)).count rn
        = if r.name == rn then
            (urs.filter (fun ur => ur.roleId == r.id && ur.userId == uid)).length
          else 0 := by
      rw [List.map_map]
      rw [show ((fun x : Role => x.name) ∘ (fun _ : UserRole => r))
          = (fun _ : UserRole => r.name) from rfl]
      rw [List.map_const', List.count_replicate]
    have hnotin : r.name ∉ rest.map (fun x => x.name) := by
      simpa using (List.nodup_cons.mp hnodup).1
    rcases List.mem_cons.mp hmem with heq | hrest
    · subst heq
      rw [hblock, if_pos (by simpa using hname)]
      have hzero : ((rest.flatMap (fun r2 =>
          (urs.filter (fun ur => ur.roleId == r2.id && ur.userId == uid)).map
            (fun _ => r2))).map (fun x => x.name)).count rn = 0 := by
        refine count_roleName_zero rest urs uid rn ?_
        intro r2 hr2 he
        rw [hname] at hnotin
        exact hnotin (List.mem_map.mpr ⟨r2, hr2, he⟩)
      rw [hzero, Nat.add_zero]
    · have hr_ne : (r.name == rn) = false := by
        rw [beq_eq_false_iff_ne]
        intro he
        rw [he] at hnotin
        exact hnotin (List.mem_map.mpr ⟨role, hrest, hname⟩)
      rw [hblock, hr_ne, if_neg (by simp)]
      rw [Nat.zero_add]
      exact ih hrest (List.nodup_cons.mp hnodup).2

end UserRepo

namespace UserRepo

/-- C5: `AssignRole` is idempotent.  For a store satisfying the store-level
constraints (unique role names, at most one association row per
(user, role) pair) and an existing role, two successive `AssignRole` calls
both succeed, exactly one association row for the pair remains, and
`GetUserRoles` lists the role name exactly once.  Each call's insert is the
single atomic `ON CONFLICT DO NOTHING` statement and its role lookup reads
only the unchanged role table, so any interleaving of two concurrent calls
equals one of the two (symmetric) sequential orders proved here. -/
theorem claim_C5_assign_idempotent (db : DB) (uid : Nat) (rn : String) (n1 n2 : Nat)
    (role : Role)
    (hfind : findRoleByName db rn = some role)
    (hnames : (db.roles.map (fun x => x.name)).Nodup)
    (hpair : (db.userRoles.filter
        (fun ur => ur.userId == uid && ur.roleId == role.id)).length ≤ 1) :
    ((assignRole db uid rn n1).1 = Except.ok ())
    ∧ ((assignRole (assignRole db uid rn n1).2 uid rn n2).1 = Except.ok ())
    ∧ (((assignRole (assignRole db uid rn n1).2 uid rn n2).2.userRoles.filter
          (fun ur => ur.userId == uid && ur.roleId == role.id)).length = 1)
    ∧ (((getUserRoles (assignRole (assignRole db uid rn n1).2 uid rn n2).2 uid).map
          (fun x => x.name)).count rn = 1) := by
  have hmem : role ∈ db.roles := List.mem_of_find?_eq_some hfind
  have hname : role.name = rn := by
    have := List.find?_some hfind
    simpa using this
  have hcomm : ∀ (l : List UserRole),
      l.filter (fun ur => ur.roleId == role.id && ur.userId == uid)
        = l.filter (fun ur => ur.userId == uid && ur.roleId == role.id) := by
    intro l
    exact List.filter_congr (fun x _ => Bool.and_comm _ _)
  by_cases hany : db.userRoles.any
      (fun ur => ur.userId == uid && ur.roleId == role.id) = true
  · have ha1 : assignRole db uid rn n1 = (Except.ok (), db) := by
      simp [assignRole, hfind, hany]
    have ha2 : assignRole db uid rn n2 = (Except.ok (), db) := by
      simp [assignRole, hfind, hany]
    have e2 : (assignRole db uid rn n1).2 = db := by rw [ha1]
    have hlen : (db.userRoles.filter
        (fun ur => ur.userId == uid && ur.roleId == role.id)).length = 1 := by
      obtain ⟨ur, hur, hP⟩ := List.any_eq_true.mp hany
      have hin : ur ∈ db.userRoles.filter
          (fun ur => ur.userId == uid && ur.roleId == role.id) :=
        List.mem_filter.mpr ⟨hur, hP⟩
      have hpos := List.length_pos.mpr (List.ne_nil_of_mem hin)
      omega
    refine ⟨by rw [ha1], ?_, ?_, ?_⟩
    · rw [e2, ha2]
    · rw [e2, ha2]
      exact hlen
    · rw [e2, ha2]
      show ((getUserRoles db uid).map (fun x => x.name)).count rn = 1
      rw [getUserRoles,
        count_roleName_flatMap db.roles db.userRoles uid rn role hmem hname hnames,
        hcomm, hlen]
  · have hanyF : db.userRoles.any
        (fun ur => ur.userId == uid && ur.roleId == role.id) = false :=
      Bool.eq_false_iff.mpr hany
    have ha1 : assignRole db uid rn n1 = (Except.ok (),
        { db with userRoles := db.userRoles ++
            [{ userId := uid, roleId := role.id, assignedAt := n1 }] }) := by
      simp [assignRole, hfind, hanyF]
    have e2 : (assignRole db uid rn n1).2 = { db with userRoles := db.userRoles ++
        [{ userId := uid, roleId := role.id, assignedAt := n1 }] } := by rw [ha1]
    have hfind2 : findRoleByName
        { db with userRoles := db.userRoles ++
            [{ userId := uid, roleId := role.id, assignedAt := n1 }] } rn
        = some role := hfind
    have hany2 : ({ db with userRoles := db.userRoles ++
        [{ userId := uid, roleId := role.id, assignedAt := n1 }] } : DB).userRoles.any
          (fun ur => ur.userId == uid && ur.roleId == role.id) = true := by
      simp
    have ha2 : assignRole
        { db with userRoles := db.userRoles ++
            [{ userId := uid, roleId := role.id, assignedAt := n1 }] } uid rn n2
        = (Except.ok (),
           { db with userRoles := db.userRoles ++
               [{ userId := uid, roleId := role.id, assignedAt := n1 }] }) := by
      simp [assignRole, hfind2, hany2]
    have hfilterNil : db.userRoles.filter
        (fun ur => ur.userId == uid && ur.roleId == role.id) = [] := by
      rw [List.filter_eq_nil_iff]
      exact List.any_eq_false.mp hanyF
    have hlen : (({ db with userRoles := db.userRoles ++
        [{ userId := uid, roleId := role.id, assignedAt := n1 }] } : DB).userRoles.filter
          (fun ur => ur.userId == uid && ur.roleId == role.id)).length = 1 := by
      simp only [List.filter_append, hfilterNil, List.nil_append]
      simp
    refine ⟨by rw [ha1], ?_, ?_, ?_⟩
    · rw [e2, ha2]
    · rw [e2, ha2]
      exact hlen
    · rw [e2, ha2]
      show ((getUserRoles { db with userRoles := db.userRoles ++
          [{ userId := uid, roleId := role.id, assignedAt := n1 }] } uid).map
            (fun x => x.name)).count rn = 1
      rw [getUserRoles,
        count_roleName_flatMap _ _ uid rn role hmem hname hnames,
        hcomm, hlen]

theorem claim_C5_witness :
    ((assignRole liveDb 5 "admin" 1).1 = Except.ok ())
    ∧ ((assignRole (assignRole liveDb 5 "admin" 1).2 5 "admin" 2).1 = Except.ok ())
    ∧ (((assignRole (assignRole liveDb 5 "admin" 1).2 5 "admin" 2).2.userRoles.filter
          (fun ur => ur.userId == 5 && ur.roleId == adminRole.id)).length = 1)
    ∧ (((getUserRoles (assignRole (assignRole liveDb 5 "admin" 1).2 5 "admin" 2).2 5).map
          (fun x => x.name)).count "admin" = 1) :=
  claim_C5_assign_idempotent liveDb 5 "admin" 1 2 adminRole (by decide) (by decide)
    (by decide)


end UserRepo
